import Mathlib

/-!
Verification development for the Atlas backend (NestJS AI document manager).

The embedding models, from the TypeScript sources:
  * the JSON values produced by `JSON.parse` and the JavaScript truthiness
    and string-coercion rules the chat accumulator relies on,
  * the Prisma-backed state (documents, chat sessions, chat messages),
  * `ChatService` (`validateDocumentAccess`, `getChatHistory`,
    `saveMessage`, `streamChat`) with an explicit event trace recording
    the order of persistence, remote-open and yield effects,
  * `DocumentsService` (`findOne`, `getStatus`, `delete`) and the
    `LogosService` remote client, with the remote service abstracted as a
    deterministic environment.
-/

namespace Atlas

/-! ## JSON values (result of `JSON.parse`) -/

/-- A JSON value as produced by `JSON.parse`.  Numbers keep their source
lexeme: the accumulator only ever asks whether a number is truthy
(non-zero), which is decidable from the lexeme. -/
inductive Json where
  | null
  | bool (b : Bool)
  | num (raw : String)
  | str (s : String)
  | arr (elems : List Json)
  | obj (fields : List (String × Json))
deriving Repr

/-- A JSON number lexeme denotes zero iff every digit of its mantissa is 0
(the exponent cannot make a non-zero mantissa zero). -/
def numIsZero (raw : String) : Bool :=
  let mantissa := raw.data.takeWhile (fun c => c ≠ 'e' ∧ c ≠ 'E')
  mantissa.all (fun c => ¬ c.isDigit ∨ c = '0')

/-- JavaScript truthiness of a parsed JSON value: `null`, `false`, `0` and
`""` are falsy; every other value (including `[]` and an empty object) is
truthy. -/
def Json.truthy : Json → Bool
  | .null => false
  | .bool b => b
  | .num raw => ¬ numIsZero raw
  | .str s => ¬ s.isEmpty
  | .arr _ => true
  | .obj _ => true

mutual
/-- JavaScript `String(v)` coercion of a parsed JSON value, as applied by
`fullResponse += data.content`.  A number is rendered by its lexeme
(adequate for the integral and decimal literals the claims involve). -/
def jsToString : Json → String
  | .null => "null"
  | .bool b => if b then "true" else "false"
  | .num raw => raw
  | .str s => s
  | .arr elems => joinElems elems
  | .obj _ => "[object Object]"

/-- `Array.prototype.toString`: elements joined by commas, `null` rendered
as the empty string. -/
def joinElems : List Json → String
  | [] => ""
  | [Json.null] => ""
  | [v] => jsToString v
  | Json.null :: rest => "," ++ joinElems rest
  | v :: rest => jsToString v ++ "," ++ joinElems rest
end

/-- Property access `o.k` on a parsed JSON value: only objects have the
named properties the accumulator reads; for duplicate keys `JSON.parse`
keeps the last occurrence. -/
def Json.getField (v : Json) (k : String) : Option Json :=
  match v with
  | .obj fields => (fields.reverse.find? (fun f => f.1 = k)).map (fun f => f.2)
  | _ => none

/-! ## A `JSON.parse` model

A recursive-descent parser over the character list, faithful to the JSON
grammar accepted by `JSON.parse`: leading/trailing whitespace is skipped,
strings require the standard escapes and reject raw control characters,
numbers follow the JSON number grammar (no leading zeros, optional
fraction and exponent).  Recursion is fueled; `jsonParse` supplies fuel
larger than the number of recursive calls any input of its length can
cause, so the fuel never runs out on real inputs. -/

/-- JSON whitespace. -/
def isJsonWs (c : Char) : Bool :=
  c = ' ' ∨ c = '\t' ∨ c = '\n' ∨ c = '\r'

/-- Skip leading JSON whitespace. -/
def skipWs : List Char → List Char
  | [] => []
  | c :: cs => if isJsonWs c then skipWs cs else c :: cs

/-- Value of a hex digit. -/
def hexVal (c : Char) : Option Nat :=
  if '0' ≤ c ∧ c ≤ '9' then some (c.toNat - '0'.toNat)
  else if 'a' ≤ c ∧ c ≤ 'f' then some (c.toNat - 'a'.toNat + 10)
  else if 'A' ≤ c ∧ c ≤ 'F' then some (c.toNat - 'A'.toNat + 10)
  else none

/-- Decode a `\uXXXX` escape body: four hex digits.  Code units that are
not scalar values (lone surrogates) decode to U+FFFD. -/
def parseHex4 : List Char → Option (Char × List Char)
  | a :: b :: c :: d :: rest => do
    let va ← hexVal a
    let vb ← hexVal b
    let vc ← hexVal c
    let vd ← hexVal d
    let n := ((va * 16 + vb) * 16 + vc) * 16 + vd
    some (if n.isValidChar then Char.ofNat n else Char.ofNat 0xFFFD, rest)
  | _ => none

/-- Decode one escape sequence after a backslash. -/
def parseEscape : List Char → Option (Char × List Char)
  | [] => none
  | c :: rest =>
    if c = '"' then some ('"', rest)
    else if c = '\\' then some ('\\', rest)
    else if c = '/' then some ('/', rest)
    else if c = 'b' then some ('\x08', rest)
    else if c = 'f' then some ('\x0c', rest)
    else if c = 'n' then some ('\n', rest)
    else if c = 'r' then some ('\r', rest)
    else if c = 't' then some ('\t', rest)
    else if c = 'u' then parseHex4 rest
    else none

/-- Parse the body of a string literal (the opening quote already
consumed), returning the decoded characters and the rest of the input. -/
def parseStrBody (fuel : Nat) (cs : List Char) : Option (List Char × List Char) :=
  match fuel with
  | 0 => none
  | fuel + 1 =>
    match cs with
    | [] => none
    | c :: rest =>
      if c = '"' then some ([], rest)
      else if c = '\\' then do
        let (e, rest') ← parseEscape rest
        let (s, r) ← parseStrBody fuel rest'
        some (e :: s, r)
      else if c.toNat < 0x20 then none
      else do
        let (s, r) ← parseStrBody fuel rest
        some (c :: s, r)

/-- Lex the fractional part of a JSON number, if present: a dot followed
by at least one digit (a dot without digits is a syntax error). -/
def lexFrac : List Char → Option (List Char × List Char)
  | '.' :: rest =>
    let ds := rest.takeWhile Char.isDigit
    if ds.isEmpty then none else some ('.' :: ds, rest.dropWhile Char.isDigit)
  | cs => some ([], cs)

/-- Lex the exponent part of a JSON number, if present. -/
def lexExp : List Char → Option (List Char × List Char)
  | [] => some ([], [])
  | e :: rest =>
    if e = 'e' ∨ e = 'E' then
      let (sgn, rest') := match rest with
        | '+' :: r => (['+'], r)
        | '-' :: r => (['-'], r)
        | _ => ([], rest)
      let ds := rest'.takeWhile Char.isDigit
      if ds.isEmpty then none
      else some (e :: (sgn ++ ds), rest'.dropWhile Char.isDigit)
    else some ([], e :: rest)

/-- Lex a JSON number at the head of the input, returning its lexeme:
optional minus sign, integer part without leading zeros, optional
fraction and exponent. -/
def lexNumber (cs : List Char) : Option (String × List Char) :=
  let (sign, cs₁) := match cs with
    | '-' :: rest => (['-'], rest)
    | _ => ([], cs)
  let intPart := cs₁.takeWhile Char.isDigit
  let cs₂ := cs₁.dropWhile Char.isDigit
  if intPart.isEmpty then none
  else if intPart.length > 1 ∧ intPart.headD '0' = '0' then none
  else do
    let (fracPart, cs₃) ← lexFrac cs₂
    let (expPart, cs₄) ← lexExp cs₃
    some (String.mk (sign ++ intPart ++ fracPart ++ expPart), cs₄)

mutual
/-- Parse one JSON value at the head of the input (leading whitespace
skipped by the caller). -/
def parseValue (fuel : Nat) (cs : List Char) : Option (Json × List Char) :=
  match fuel with
  | 0 => none
  | fuel + 1 =>
    match cs with
    | [] => none
    | c :: rest =>
      if c = '\x7b' then
        match skipWs rest with
        | '\x7d' :: r => some (.obj [], r)
        | r => parseMembers fuel r []
      else if c = '[' then
        match skipWs rest with
        | ']' :: r => some (.arr [], r)
        | r => parseElems fuel r []
      else if c = '"' then do
        let (s, r) ← parseStrBody (rest.length + 1) rest
        some (.str (String.mk s), r)
      else if c = 't' then
        match cs with
        | 't' :: 'r' :: 'u' :: 'e' :: r => some (.bool true, r)
        | _ => none
      else if c = 'f' then
        match cs with
        | 'f' :: 'a' :: 'l' :: 's' :: 'e' :: r => some (.bool false, r)
        | _ => none
      else if c = 'n' then
        match cs with
        | 'n' :: 'u' :: 'l' :: 'l' :: r => some (.null, r)
        | _ => none
      else do
        let (raw, r) ← lexNumber cs
        some (.num raw, r)

/-- Parse the members of an object after `{` (input positioned at the
first key), accumulating parsed fields in order. -/
def parseMembers (fuel : Nat) (cs : List Char) (acc : List (String × Json)) :
    Option (Json × List Char) :=
  match fuel with
  | 0 => none
  | fuel + 1 =>
    match cs with
    | '"' :: rest => do
      let (k, r₁) ← parseStrBody (rest.length + 1) rest
      match skipWs r₁ with
      | ':' :: r₂ => do
        let (v, r₃) ← parseValue fuel (skipWs r₂)
        let acc' := acc ++ [(String.mk k, v)]
        match skipWs r₃ with
        | ',' :: r₄ => parseMembers fuel (skipWs r₄) acc'
        | '\x7d' :: r₄ => some (.obj acc', r₄)
        | _ => none
      | _ => none
    | _ => none

/-- Parse the elements of an array after `[` (input positioned at the
first element). -/
def parseElems (fuel : Nat) (cs : List Char) (acc : List Json) :
    Option (Json × List Char) :=
  match fuel with
  | 0 => none
  | fuel + 1 => do
    let (v, r₁) ← parseValue fuel cs
    let acc' := acc ++ [v]
    match skipWs r₁ with
    | ',' :: r₂ => parseElems fuel (skipWs r₂) acc'
    | ']' :: r₂ => some (.arr acc', r₂)
    | _ => none
end

/-- `JSON.parse`: skip surrounding whitespace, parse one value, and
require the input to be exhausted; `none` models a thrown
`SyntaxError`. -/
def jsonParse (s : String) : Option Json :=
  match parseValue (2 * s.length + 2) (skipWs s.data) with
  | some (v, rest) => if (skipWs rest).isEmpty then some v else none
  | none => none

/-! ## Chat stream accumulation (`ChatService.streamChat` parse loop)

`streamChat` splits each chunk with `chunk.toString().split('\n')`,
inspects the lines that start with the SSE event-data marker `"data: "`,
parses the payload after the marker with `JSON.parse`, appends a truthy
`content` field to the running response and replaces the tracked
identifier list with a truthy `chunk_ids` field; a line whose payload
fails to parse is skipped (`catch` with an empty body). -/

/-- JavaScript `split('\n')`: the list of segments between newline
characters, keeping empty segments. -/
def splitNl : List Char → List (List Char)
  | [] => [[]]
  | c :: rest =>
    if c = '\n' then [] :: splitNl rest
    else
      match splitNl rest with
      | l :: ls => (c :: l) :: ls
      | [] => [[c]]

/-- The lines of one chunk: `chunk.toString().split('\n')` (chunks are
modelled post-UTF-8-decoding, so `toString` is the identity). -/
def chunkLines (chunk : String) : List (List Char) :=
  splitNl chunk.data

/-- The SSE event-data marker the parse loop looks for. -/
def dataMarker : List Char := "data: ".data

/-- The running accumulator of the parse loop: `fullResponse` and
`chunkIds` in `streamChat`. -/
structure Accum where
  fullResponse : String
  chunkIds : List String
deriving Repr, DecidableEq

/-- Initial accumulator: `let fullResponse = ''; let chunkIds = []`. -/
def initAccum : Accum := ⟨"", []⟩

/-- The value assigned to `chunkIds` by `chunkIds = data.chunk_ids`: the
parsed array with its elements coerced to the strings the message row
stores.  (Every payload the claims involve is an array of strings, on
which this is the identity.) -/
def Json.asStringArray : Json → List String
  | .arr elems => elems.map jsToString
  | v => [jsToString v]

/-- Process one line of a chunk, as the body of the inner `for` loop of
`streamChat` does. -/
def accumLine (acc : Accum) (line : List Char) : Accum :=
  if dataMarker.isPrefixOf line then
    match jsonParse (String.mk (line.drop 6)) with
    | some data =>
      let acc₁ :=
        match data.getField "content" with
        | some v =>
          if v.truthy then
            { acc with fullResponse := acc.fullResponse ++ jsToString v }
          else acc
        | none => acc
      match data.getField "chunk_ids" with
      | some v => if v.truthy then { acc₁ with chunkIds := v.asStringArray } else acc₁
      | none => acc₁
    | none => acc
  else acc

/-- Process one chunk: split it into lines and run the line loop. -/
def accumChunk (acc : Accum) (chunk : String) : Accum :=
  (chunkLines chunk).foldl accumLine acc

/-! ## Persistent state (Prisma models) -/

/-- A row of the `Document` table.  Prisma enum values are strings at
runtime, so `status` is a string (`"PENDING"`, `"PROCESSING"`,
`"COMPLETED"`, `"FAILED"`). -/
structure Document where
  id : String
  user_id : String
  logos_id : Option String
  status : String
  summary : Option String
  classification : Option String
  error_message : Option String
deriving Repr, DecidableEq

/-- A row of the `ChatSession` table (`document_id` carries a unique
index). -/
structure ChatSession where
  id : String
  document_id : String
deriving Repr, DecidableEq

/-- A row of the `ChatMessage` table.  `created_at` is a logical
timestamp: rows are created with strictly increasing values. -/
structure ChatMessage where
  id : String
  session_id : String
  role : String
  content : String
  chunk_ids : List String
  created_at : Nat
deriving Repr, DecidableEq

/-- The database state.  `nextId` feeds generated row ids and the logical
`created_at` timestamps; rows are appended in creation order. -/
structure Db where
  documents : List Document
  sessions : List ChatSession
  messages : List ChatMessage
  nextId : Nat
deriving Repr, DecidableEq

/-- `prisma.document.findUnique({ where: { id } })`. -/
def Db.findDocument (db : Db) (documentId : String) : Option Document :=
  db.documents.find? (fun d => d.id == documentId)

/-- `prisma.chatSession.findUnique({ where: { document_id } })`. -/
def Db.findSession (db : Db) (documentId : String) : Option ChatSession :=
  db.sessions.find? (fun s => s.document_id == documentId)

/-- The messages of a session ordered by `created_at` ascending: rows are
appended with strictly increasing `created_at`, so stored order is
ascending creation order (theorem statements make the sortedness
explicit). -/
def Db.sessionMessages (db : Db) (sessionId : String) : List ChatMessage :=
  db.messages.filter (fun m => m.session_id == sessionId)

/-- The semantic error classes the services throw: `NotFoundException`,
`ForbiddenException`, `BadRequestException` (the spec's `InvalidState`),
and `HttpException` raised by the remote client. -/
inductive ApiError where
  | notFound (msg : String)
  | forbidden (msg : String)
  | badRequest (msg : String)
  | http (status : Nat) (msg : String)
deriving Repr, DecidableEq

/-! ## ChatService -/

/-- `ChatService.validateDocumentAccess`: not-found, ownership, readiness
and remote-reference checks, in the source's order. -/
def validateDocumentAccess (db : Db) (userId documentId : String) :
    Except ApiError Document :=
  match db.findDocument documentId with
  | none => .error (.notFound "Document not found")
  | some document =>
    if document.user_id ≠ userId then .error (.forbidden "Access denied")
    else if document.status ≠ "COMPLETED" then
      .error (.badRequest ("Document is not ready. Current status: " ++ document.status))
    else
      match document.logos_id with
      | none => .error (.badRequest "Document has no Logos reference")
      | some _ => .ok document

/-- `ChatService.getOrCreateSession`. -/
def getOrCreateSession (db : Db) (documentId : String) : ChatSession × Db :=
  match db.findSession documentId with
  | some session => (session, db)
  | none =>
    let session : ChatSession := ⟨"session-" ++ toString db.nextId, documentId⟩
    (session, { db with sessions := db.sessions ++ [session], nextId := db.nextId + 1 })

/-- One message of a `ChatHistoryResponseDto`. -/
structure ChatMessageResponse where
  id : String
  role : String
  content : String
  chunk_ids : List String
  created_at : Nat
deriving Repr, DecidableEq

/-- `ChatHistoryResponseDto`. -/
structure ChatHistoryResponse where
  session_id : String
  document_id : String
  messages : List ChatMessageResponse
deriving Repr, DecidableEq

/-- `ChatService.getChatHistory`: validate access, then return the
session's messages ordered by creation time, or an empty history when no
session exists. -/
def getChatHistory (db : Db) (userId documentId : String) :
    Except ApiError ChatHistoryResponse := do
  let _ ← validateDocumentAccess db userId documentId
  match db.findSession documentId with
  | none => .ok ⟨"", documentId, []⟩
  | some session =>
    .ok ⟨session.id, documentId,
      (db.sessionMessages session.id).map
        (fun m => ⟨m.id, m.role, m.content, m.chunk_ids, m.created_at⟩)⟩

/-- `ChatService.saveMessage`: get or create the session, then create a
message row (the source's default `chunkIds = []` is passed explicitly by
callers here). -/
def saveMessage (db : Db) (documentId role content : String)
    (chunkIds : List String) : ChatMessage × Db :=
  let sget := getOrCreateSession db documentId
  let message : ChatMessage :=
    ⟨"message-" ++ toString sget.2.nextId, sget.1.id, role, content, chunkIds, sget.2.nextId⟩
  (message, { sget.2 with messages := sget.2.messages ++ [message], nextId := sget.2.nextId + 1 })

/-- `ChatRequestDto`: `conversation_history` is the optional field the
client may send (each entry a role/content pair). -/
structure ChatRequest where
  document_id : String
  message : String
  conversation_history : Option (List (String × String))
deriving Repr, DecidableEq

/-- The observable effects of one `streamChat` invocation, in program
order. -/
inductive Ev where
  | saveUser (documentId content : String)
  | openRemote (logosId message : String) (history : List (String × String))
  | yieldChunk (chunk : String)
  | saveAssistant (documentId content : String) (chunkIds : List String)
deriving Repr, DecidableEq

/-- The remote chat endpoint, abstracted: given the Logos document id,
the message and the conversation history sent in the POST body, it
yields a finite list of chunks and then either closes normally (`none`)
or aborts with an error (`some e`). -/
def ChatRemote := String → String → List (String × String) → List String × Option ApiError

/-- `LogosService.chatStream`: POST `/chat` and re-yield every chunk of
the response stream (`chunk.toString()` is the identity on the decoded
text chunks of this model). -/
def chatStream (remote : ChatRemote) (logosDocumentId message : String)
    (conversationHistory : List (String × String)) : List String × Option ApiError :=
  remote logosDocumentId message conversationHistory

/-- The `for await (const chunk of stream)` loop of `streamChat`: feed
each chunk to the incremental parser and yield it unchanged. -/
def streamLoop : Accum → List String → Accum × List Ev
  | acc, [] => (acc, [])
  | acc, chunk :: rest =>
    let acc₁ := accumChunk acc chunk
    let (accFin, evs) := streamLoop acc₁ rest
    (accFin, .yieldChunk chunk :: evs)

/-- The result of one `streamChat` invocation: its effect trace, the
final database state, and the error it raised, if any (a mid-stream
remote error propagates after the delivered chunks were yielded). -/
structure StreamOutcome where
  trace : List Ev
  db : Db
  error : Option ApiError
deriving Repr, DecidableEq

/-- `ChatService.streamChat`: validate, persist the user message, rebuild
the context from the persisted history minus the just-saved entry, open
the remote stream, forward every chunk while accumulating, and persist
the assistant message when the stream closed normally and the
accumulation is non-empty. -/
def streamChat (remote : ChatRemote) (db : Db) (userId : String) (req : ChatRequest) :
    StreamOutcome :=
  match validateDocumentAccess db userId req.document_id with
  | .error e => ⟨[], db, some e⟩
  | .ok document =>
    let db₁ := (saveMessage db req.document_id "user" req.message []).2
    match getChatHistory db₁ userId req.document_id with
    | .error e => ⟨[.saveUser req.document_id req.message], db₁, some e⟩
    | .ok history =>
      let conversationHistory := history.messages.dropLast.map (fun m => (m.role, m.content))
      let logosId := document.logos_id.getD ""
      let res := chatStream remote logosId req.message conversationHistory
      let chunks := res.1
      let streamErr := res.2
      let run := streamLoop initAccum chunks
      let acc := run.1
      let yields := run.2
      let tracePre := Ev.saveUser req.document_id req.message ::
        Ev.openRemote logosId req.message conversationHistory :: yields
      match streamErr with
      | some e => ⟨tracePre, db₁, some e⟩
      | none =>
        if acc.fullResponse ≠ "" then
          ⟨tracePre ++ [.saveAssistant req.document_id acc.fullResponse acc.chunkIds],
            (saveMessage db₁ req.document_id "assistant" acc.fullResponse acc.chunkIds).2,
            none⟩
        else ⟨tracePre, db₁, none⟩

/-! ## LogosService (document endpoints) and DocumentsService -/

/-- The body of a `GET /documents/:id/status` response. -/
structure LogosStatusResponse where
  id : String
  status : String
  summary : Option String
  classification : Option String
  error_message : Option String
deriving Repr, DecidableEq

/-- The remote document service, abstracted as a deterministic
environment: `statusOf` is the raw status-endpoint response body and
`deleteError` the outcome of the delete endpoint (`none` = success). -/
structure LogosEnv where
  statusOf : String → LogosStatusResponse
  deleteError : String → Option ApiError

/-- `status?.toUpperCase()`: uppercase every character (modelled over the
character list). -/
def toUpperStr (s : String) : String :=
  String.mk (s.data.map Char.toUpper)

/-- `LogosService.getDocumentStatus`: fetch the raw status and uppercase
the `status` field. -/
def getDocumentStatus (env : LogosEnv) (logosId : String) : LogosStatusResponse :=
  let response := env.statusOf logosId
  { response with status := toUpperStr response.status }

/-- `LogosService.deleteDocument`: DELETE `/documents/:id`; a failing
call raises through `handleError`. -/
def logosDeleteDocument (env : LogosEnv) (logosId : String) : Except ApiError Unit :=
  match env.deleteError logosId with
  | none => .ok ()
  | some e => .error e

/-- The observable effects of one DocumentsService call: remote calls and
local writes, in program order. -/
inductive DocEv where
  | remoteStatus (logosId : String)
  | remoteDelete (logosId : String)
  | dbUpdate (documentId : String)
  | dbDelete (documentId : String)
deriving Repr, DecidableEq

/-- The value `DocumentsService.getStatus` returns. -/
structure StatusView where
  id : String
  status : String
  summary : Option String
  classification : Option String
  error_message : Option String
deriving Repr, DecidableEq

/-- `DocumentsService.findOne`: lookup plus ownership check (the Document
Directory's access rule). -/
def findOne (db : Db) (userId documentId : String) : Except ApiError Document :=
  match db.findDocument documentId with
  | none => .error (.notFound "Document not found")
  | some document =>
    if document.user_id ≠ userId then .error (.forbidden "Access denied")
    else .ok document

/-- `prisma.document.update({ where: { id }, data })`. -/
def Db.updateDocument (db : Db) (documentId : String) (f : Document → Document) : Db :=
  { db with documents := db.documents.map (fun d => if d.id = documentId then f d else d) }

/-- `prisma.document.delete({ where: { id } })`; chat sessions and their
messages cascade per the migration's foreign keys. -/
def Db.removeDocument (db : Db) (documentId : String) : Db :=
  let removedSessions := db.sessions.filter (fun s => s.document_id == documentId)
  { db with
    documents := db.documents.filter (fun d => d.id != documentId),
    sessions := db.sessions.filter (fun s => s.document_id != documentId),
    messages := db.messages.filter
      (fun m => removedSessions.all (fun s => s.id != m.session_id)) }

/-- The `data` record of the `prisma.document.update` call in
`DocumentsService.getStatus`: the fresh remote status, summary,
classification and error message. -/
def statusData (logosStatus : LogosStatusResponse) (d : Document) : Document :=
  { d with
    status := logosStatus.status,
    summary := logosStatus.summary,
    classification := logosStatus.classification,
    error_message := logosStatus.error_message }

/-- `DocumentsService.getStatus`: local fields verbatim when the document
has no remote reference; otherwise fetch fresh remote status, persist it
locally when the status changed, and return the fresh values. -/
def getStatus (env : LogosEnv) (db : Db) (userId documentId : String) :
    Except ApiError (StatusView × Db × List DocEv) := do
  let document ← findOne db userId documentId
  match document.logos_id with
  | none =>
    .ok (⟨document.id, document.status, document.summary, document.classification,
      document.error_message⟩, db, [])
  | some lid =>
    let logosStatus := getDocumentStatus env lid
    if logosStatus.status ≠ document.status then
      let db' := db.updateDocument documentId (statusData logosStatus)
      .ok (⟨document.id, logosStatus.status, logosStatus.summary,
        logosStatus.classification, logosStatus.error_message⟩, db',
        [.remoteStatus lid, .dbUpdate documentId])
    else
      .ok (⟨document.id, logosStatus.status, logosStatus.summary,
        logosStatus.classification, logosStatus.error_message⟩, db,
        [.remoteStatus lid])

/-- `DocumentsService.delete`: best-effort remote delete (a failure is
caught and logged), then an unconditional local delete. -/
def deleteDocument (env : LogosEnv) (db : Db) (userId documentId : String) :
    Except ApiError (String × Db × List DocEv) := do
  let document ← findOne db userId documentId
  let remoteEvs :=
    match document.logos_id with
    | some lid =>
      match logosDeleteDocument env lid with
      | .ok _ => [DocEv.remoteDelete lid]
      | .error _ => [DocEv.remoteDelete lid]
    | none => []
  let db' := db.removeDocument documentId
  .ok ("Document deleted successfully", db', remoteEvs ++ [DocEv.dbDelete documentId])

/-! ## Derived descriptions of the accumulator

`lineFrag` and `lineIds` name what one line contributes: the content
fragment it carries, and the identifier list it carries, if any.  They
follow the same marker/parse/truthiness tests as `accumLine`; the lemma
`accumLine_eq` proves that `accumLine` is exactly "append the fragment,
replace the identifiers". -/

/-- The content fragment carried by a line: present when the line starts
with the event-data marker, its payload parses, and the payload's
`content` field is truthy. -/
def lineFrag (line : List Char) : Option String :=
  if dataMarker.isPrefixOf line then
    match jsonParse (String.mk (line.drop 6)) with
    | some data =>
      match data.getField "content" with
      | some v => if v.truthy then some (jsToString v) else none
      | none => none
    | none => none
  else none

/-- The identifier list carried by a line, under the same tests. -/
def lineIds (line : List Char) : Option (List String) :=
  if dataMarker.isPrefixOf line then
    match jsonParse (String.mk (line.drop 6)) with
    | some data =>
      match data.getField "chunk_ids" with
      | some v => if v.truthy then some v.asStringArray else none
      | none => none
    | none => none
  else none

/-- Concatenation, in order, of the content fragments carried by a list
of lines. -/
def fragsJoin : List (List Char) → String
  | [] => ""
  | l :: ls => (lineFrag l).getD "" ++ fragsJoin ls

/-- The last identifier list carried by any of the lines, starting from
`d`; a line carrying none leaves the current value (last-write-wins). -/
def lastIds : List (List Char) → List String → List String
  | [], d => d
  | l :: ls, d => lastIds ls ((lineIds l).getD d)

/-- All the lines the parse loop inspects for a chunk list: each chunk's
own lines, in arrival order (a line split across chunks appears as its
pieces, never reassembled). -/
def allLines (chunks : List String) : List (List Char) :=
  chunks.flatMap chunkLines

/-- The accumulator value after the whole stream. -/
def streamAccum (chunks : List String) : Accum :=
  ⟨fragsJoin (allLines chunks), lastIds (allLines chunks) []⟩

theorem accumLine_eq (acc : Accum) (l : List Char) :
    accumLine acc l =
      ⟨acc.fullResponse ++ (lineFrag l).getD "", (lineIds l).getD acc.chunkIds⟩ := by
  unfold accumLine lineFrag lineIds
  by_cases hp : dataMarker.isPrefixOf l
  · simp only [hp, if_true]
    cases hj : jsonParse (String.mk (l.drop 6)) with
    | none => simp [String.append_empty]
    | some data =>
      cases hc : data.getField "content" with
      | none =>
        cases hk : data.getField "chunk_ids" with
        | none => simp [hc, hk, String.append_empty]
        | some v =>
          by_cases hv : v.truthy <;> simp [hc, hk, hv, String.append_empty]
      | some w =>
        by_cases hw : w.truthy <;>
          · cases hk : data.getField "chunk_ids" with
            | none => simp [hc, hk, hw, String.append_empty]
            | some v =>
              by_cases hv : v.truthy <;> simp [hc, hk, hw, hv, String.append_empty]
  · simp [hp, String.append_empty]

theorem foldl_accumLine (lines : List (List Char)) (acc : Accum) :
    lines.foldl accumLine acc =
      ⟨acc.fullResponse ++ fragsJoin lines, lastIds lines acc.chunkIds⟩ := by
  induction lines generalizing acc with
  | nil => simp [fragsJoin, lastIds, String.append_empty]
  | cons l ls ih =>
    simp only [List.foldl_cons, ih, accumLine_eq, fragsJoin, lastIds,
      String.append_assoc]

theorem streamLoop_eq (cs : List String) (acc : Accum) :
    streamLoop acc cs = ((allLines cs).foldl accumLine acc, cs.map Ev.yieldChunk) := by
  induction cs generalizing acc with
  | nil => simp [streamLoop, allLines]
  | cons c cs ih =>
    simp only [streamLoop, ih, allLines, List.flatMap_cons, List.foldl_append,
      List.map_cons, accumChunk]

theorem streamLoop_run (cs : List String) :
    streamLoop initAccum cs = (streamAccum cs, cs.map Ev.yieldChunk) := by
  rw [streamLoop_eq, foldl_accumLine]
  simp [initAccum, streamAccum, String.empty_append]

/-! ## Running `streamChat` under a passing validation -/

theorem validateAccess_ok {db : Db} {userId documentId : String} {doc : Document}
    {lid : String} (hdoc : db.findDocument documentId = some doc)
    (hown : doc.user_id = userId) (hst : doc.status = "COMPLETED")
    (hlid : doc.logos_id = some lid) :
    validateDocumentAccess db userId documentId = .ok doc := by
  unfold validateDocumentAccess
  rw [hdoc]
  simp [hown, hst, hlid]

theorem saveMessage_documents (db : Db) (documentId role content : String)
    (chunkIds : List String) :
    ((saveMessage db documentId role content chunkIds).2).documents = db.documents := by
  unfold saveMessage getOrCreateSession
  cases db.findSession documentId <;> simp

theorem saveMessage_messages (db : Db) (documentId role content : String)
    (chunkIds : List String) :
    ((saveMessage db documentId role content chunkIds).2).messages =
      db.messages ++ [(saveMessage db documentId role content chunkIds).1] := by
  unfold saveMessage getOrCreateSession
  cases db.findSession documentId <;> simp

theorem findDocument_of_documents_eq {db₁ db₂ : Db} (h : db₁.documents = db₂.documents)
    (documentId : String) : db₁.findDocument documentId = db₂.findDocument documentId := by
  unfold Db.findDocument
  rw [h]

/-- The history value `getChatHistory` returns once validation passed. -/
def historyView (db : Db) (documentId : String) : ChatHistoryResponse :=
  match db.findSession documentId with
  | none => ⟨"", documentId, []⟩
  | some session =>
    ⟨session.id, documentId,
      (db.sessionMessages session.id).map
        (fun m => ⟨m.id, m.role, m.content, m.chunk_ids, m.created_at⟩)⟩

theorem getChatHistory_eq_ok {db : Db} {userId documentId : String} {doc : Document}
    (h : validateDocumentAccess db userId documentId = .ok doc) :
    getChatHistory db userId documentId = .ok (historyView db documentId) := by
  unfold getChatHistory historyView
  rw [h]
  cases db.findSession documentId <;> rfl

/-- The conversation context `streamChat` sends to the remote: the
persisted history of the document's session after the user message was
saved, minus that just-saved last entry, as role/content pairs. -/
def chatContext (db : Db) (documentId message : String) : List (String × String) :=
  (historyView (saveMessage db documentId "user" message []).2 documentId).messages.dropLast.map
    (fun m => (m.role, m.content))

/-- One-step description of a `streamChat` run that passes validation:
the user message is saved, the remote is opened on the rebuilt context,
every chunk is yielded, and the assistant message is saved exactly when
the stream closed normally with non-empty accumulation. -/
theorem streamChat_run {remote : ChatRemote} {db : Db} {userId : String}
    {req : ChatRequest} {doc : Document} {lid : String}
    (hdoc : db.findDocument req.document_id = some doc)
    (hown : doc.user_id = userId) (hst : doc.status = "COMPLETED")
    (hlid : doc.logos_id = some lid) :
    streamChat remote db userId req =
      let db₁ := (saveMessage db req.document_id "user" req.message []).2
      let ctx := chatContext db req.document_id req.message
      let res := remote lid req.message ctx
      let acc := streamAccum res.1
      let tracePre := Ev.saveUser req.document_id req.message ::
        Ev.openRemote lid req.message ctx :: res.1.map Ev.yieldChunk
      match res.2 with
      | some e => ⟨tracePre, db₁, some e⟩
      | none =>
        if acc.fullResponse ≠ "" then
          ⟨tracePre ++ [.saveAssistant req.document_id acc.fullResponse acc.chunkIds],
            (saveMessage db₁ req.document_id "assistant" acc.fullResponse acc.chunkIds).2,
            none⟩
        else ⟨tracePre, db₁, none⟩ := by
  have hdoc₁ :
      ((saveMessage db req.document_id "user" req.message []).2).findDocument
        req.document_id = some doc := by
    rw [findDocument_of_documents_eq
      (saveMessage_documents db req.document_id "user" req.message []) req.document_id]
    exact hdoc
  have hval₁ := validateAccess_ok hdoc₁ hown hst hlid
  unfold streamChat
  simp only [validateAccess_ok hdoc hown hst hlid, getChatHistory_eq_ok hval₁,
    chatContext, hlid, Option.getD_some, streamLoop_run, chatStream]

/-- Projection of the yield events of a trace. -/
def yieldOf : Ev → Option String
  | .yieldChunk c => some c
  | _ => none

theorem saveMessage_fst (db : Db) (documentId role content : String)
    (chunkIds : List String) :
    ((saveMessage db documentId role content chunkIds).1).role = role ∧
    ((saveMessage db documentId role content chunkIds).1).content = content ∧
    ((saveMessage db documentId role content chunkIds).1).chunk_ids = chunkIds :=
  ⟨rfl, rfl, rfl⟩

/-! ## Concrete fixtures used by the closed witness theorems -/

/-- A COMPLETED document owned by `u1` with a remote reference. -/
def exDoc : Document := ⟨"d1", "u1", some "L1", "COMPLETED", none, none, none⟩

/-- A state holding just `exDoc`. -/
def exDb : Db := ⟨[exDoc], [], [], 0⟩

/-- The chunk list of the spec's accumulation example. -/
def exChunks : List String :=
  ["data: \x7b\"content\":\"Hel\"\x7d\n",
   "data: \x7b\"content\":\"lo\"\x7d\n",
   "data: \x7b\"chunk_ids\":[\"a\",\"b\"]\x7d\n"]

/-- A remote that emits the spec's example lines and closes normally. -/
def exRemote : ChatRemote := fun _ _ _ => (exChunks, none)

/-! ## Claim theorems -/

/-- C9: the `conversation_history` field of the chat request has no
effect on `streamChat` — two invocations differing only in that field
produce identical outcomes (same trace: same remote open, same forwarded
chunks; same final state: same persisted messages; same error). -/
theorem conversation_history_no_effect (remote : ChatRemote) (db : Db)
    (userId : String) (r₁ r₂ : ChatRequest)
    (hd : r₁.document_id = r₂.document_id) (hm : r₁.message = r₂.message) :
    streamChat remote db userId r₁ = streamChat remote db userId r₂ := by
  cases r₁
  cases r₂
  cases hd
  cases hm
  rfl

theorem conversation_history_no_effect_witness :
    streamChat exRemote exDb "u1" ⟨"d1", "hi", none⟩ =
      streamChat exRemote exDb "u1" ⟨"d1", "hi", some [("user", "earlier"), ("assistant", "reply")]⟩ :=
  conversation_history_no_effect exRemote exDb "u1" _ _ rfl rfl

/-- C4: a `streamChat` request that fails validation — document absent
(NotFound), not owned by the caller (Forbidden), not COMPLETED or without
a remote reference (InvalidState) — fails with an empty trace (no remote
call, no chunk yielded) and an unchanged state (no message persisted). -/
theorem chat_validation_rejects_before_effects (remote : ChatRemote) (db : Db)
    (userId : String) (req : ChatRequest) :
    (db.findDocument req.document_id = none →
      streamChat remote db userId req =
        ⟨[], db, some (.notFound "Document not found")⟩) ∧
    (∀ doc, db.findDocument req.document_id = some doc → doc.user_id ≠ userId →
      streamChat remote db userId req =
        ⟨[], db, some (.forbidden "Access denied")⟩) ∧
    (∀ doc, db.findDocument req.document_id = some doc → doc.user_id = userId →
      doc.status ≠ "COMPLETED" →
      streamChat remote db userId req =
        ⟨[], db, some (.badRequest ("Document is not ready. Current status: " ++ doc.status))⟩) ∧
    (∀ doc, db.findDocument req.document_id = some doc → doc.user_id = userId →
      doc.status = "COMPLETED" → doc.logos_id = none →
      streamChat remote db userId req =
        ⟨[], db, some (.badRequest "Document has no Logos reference")⟩) := by
  refine ⟨fun h => ?_, fun doc h hown => ?_, fun doc h hown hst => ?_,
    fun doc h hown hst hlid => ?_⟩ <;>
    unfold streamChat validateDocumentAccess <;> rw [h] <;>
    simp [hown]
  · simp [hst]
  · simp [hst, hlid]

theorem chat_validation_rejects_before_effects_witness :
    streamChat exRemote exDb "u1" ⟨"missing", "hi", none⟩ =
      ⟨[], exDb, some (.notFound "Document not found")⟩ ∧
    streamChat exRemote exDb "u2" ⟨"d1", "hi", none⟩ =
      ⟨[], exDb, some (.forbidden "Access denied")⟩ :=
  ⟨(chat_validation_rejects_before_effects exRemote exDb "u1" ⟨"missing", "hi", none⟩).1
      (by decide),
   (chat_validation_rejects_before_effects exRemote exDb "u2" ⟨"d1", "hi", none⟩).2.1
      exDoc (by decide) (by decide)⟩

/-- At the string level, `streamChat` yields every chunk its
`chatStream` argument produced, unchanged and in order, whatever the
incremental parser did with the chunks and however the stream ended. -/
theorem streamChat_yields {remote : ChatRemote} {db : Db} {userId : String}
    {req : ChatRequest} {doc : Document} {lid : String} {cs : List String}
    {err : Option ApiError}
    (hdoc : db.findDocument req.document_id = some doc)
    (hown : doc.user_id = userId) (hst : doc.status = "COMPLETED")
    (hlid : doc.logos_id = some lid)
    (hrem : remote lid req.message (chatContext db req.document_id req.message) = (cs, err)) :
    (streamChat remote db userId req).trace.filterMap yieldOf = cs := by
  rw [streamChat_run hdoc hown hst hlid]
  simp only [hrem]
  cases err with
  | some e => simp [yieldOf, List.filterMap_map, Function.comp_def]
  | none =>
    by_cases hne : (streamAccum cs).fullResponse ≠ "" <;>
      simp [hne, yieldOf, List.filterMap_map, Function.comp_def]

/-- C1: when the remote stream closes normally, the persisted assistant
message's content is the concatenation, in arrival order, of the content
fragments carried by the `data: `-marked lines the parse loop saw (for a
stream whose chunks are whole lines, `allLines` are exactly the stream's
lines, plus chunk-final empty segments that carry nothing), and its chunk
ids are the last `chunk_ids` set seen (earlier sets discarded); a line
with malformed JSON has `lineFrag`/`lineIds` `none`, so it contributes
nothing, and the run reports no error. -/
theorem chat_persists_accumulated_response {remote : ChatRemote} {db : Db}
    {userId : String} {req : ChatRequest} {doc : Document} {lid : String}
    {cs : List String}
    (hdoc : db.findDocument req.document_id = some doc)
    (hown : doc.user_id = userId) (hst : doc.status = "COMPLETED")
    (hlid : doc.logos_id = some lid)
    (hrem : remote lid req.message (chatContext db req.document_id req.message) = (cs, none))
    (hne : fragsJoin (allLines cs) ≠ "") :
    (streamChat remote db userId req).error = none ∧
    ∃ userMsg asstMsg : ChatMessage,
      (streamChat remote db userId req).db.messages = db.messages ++ [userMsg, asstMsg] ∧
      userMsg.role = "user" ∧ userMsg.content = req.message ∧
      asstMsg.role = "assistant" ∧
      asstMsg.content = fragsJoin (allLines cs) ∧
      asstMsg.chunk_ids = lastIds (allLines cs) [] := by
  rw [streamChat_run hdoc hown hst hlid]
  simp only [hrem, streamAccum, ne_eq, hne, not_false_eq_true, if_true, ite_not]
  refine ⟨by trivial, (saveMessage db req.document_id "user" req.message []).1,
    (saveMessage (saveMessage db req.document_id "user" req.message []).2
      req.document_id "assistant" (fragsJoin (allLines cs)) (lastIds (allLines cs) [])).1,
    ?_, rfl, rfl, rfl, rfl, rfl⟩
  rw [saveMessage_messages, saveMessage_messages, List.append_assoc]
  rfl

theorem chat_persists_accumulated_response_witness :
    fragsJoin (allLines exChunks) = "Hello" ∧
    lastIds (allLines exChunks) [] = ["a", "b"] ∧
    ((streamChat exRemote exDb "u1" ⟨"d1", "hi", none⟩).error = none ∧
      ∃ userMsg asstMsg : ChatMessage,
        (streamChat exRemote exDb "u1" ⟨"d1", "hi", none⟩).db.messages =
          exDb.messages ++ [userMsg, asstMsg] ∧
        userMsg.role = "user" ∧ userMsg.content = "hi" ∧
        asstMsg.role = "assistant" ∧
        asstMsg.content = fragsJoin (allLines exChunks) ∧
        asstMsg.chunk_ids = lastIds (allLines exChunks) []) :=
  ⟨by decide, by decide,
    @chat_persists_accumulated_response exRemote exDb "u1" ⟨"d1", "hi", none⟩
      exDoc "L1" exChunks (by decide) (by decide) (by decide) (by decide) rfl
      (by decide)⟩

/-- C3: in a validated `streamChat` run the user message is persisted
strictly before the remote stream is opened (trace positions 0 and 1);
when the stream closes normally with non-empty accumulation, the
assistant message is persisted after every chunk was yielded (it is the
last trace event) and both messages are in the final state; when the
accumulation is empty or the stream errors mid-flight, no assistant
persistence occurs — only the user message was added. -/
theorem chat_persistence_ordering {remote : ChatRemote} {db : Db}
    {userId : String} {req : ChatRequest} {doc : Document} {lid : String}
    {cs : List String} {err : Option ApiError}
    (hdoc : db.findDocument req.document_id = some doc)
    (hown : doc.user_id = userId) (hst : doc.status = "COMPLETED")
    (hlid : doc.logos_id = some lid)
    (hrem : remote lid req.message (chatContext db req.document_id req.message) = (cs, err)) :
    (streamChat remote db userId req).trace.take 2 =
      [.saveUser req.document_id req.message,
        .openRemote lid req.message (chatContext db req.document_id req.message)] ∧
    ((err = none ∧ fragsJoin (allLines cs) ≠ "") →
      (streamChat remote db userId req).trace =
        .saveUser req.document_id req.message ::
          .openRemote lid req.message (chatContext db req.document_id req.message) ::
            (cs.map Ev.yieldChunk ++
              [.saveAssistant req.document_id (fragsJoin (allLines cs))
                (lastIds (allLines cs) [])])) ∧
    ((err ≠ none ∨ fragsJoin (allLines cs) = "") →
      ((∀ d c ids, Ev.saveAssistant d c ids ∉ (streamChat remote db userId req).trace) ∧
        (streamChat remote db userId req).db.messages =
          db.messages ++ [(saveMessage db req.document_id "user" req.message []).1] ∧
        (streamChat remote db userId req).error = err)) := by
  rw [streamChat_run hdoc hown hst hlid]
  simp only [hrem]
  cases err with
  | some e =>
    refine ⟨by simp, fun h => absurd h.1 (by simp), fun _ => ⟨?_, ?_, by simp⟩⟩
    · intro d c ids hmem
      simp only [List.mem_cons, List.mem_map] at hmem
      rcases hmem with h | h | h
      · exact Ev.noConfusion h
      · exact Ev.noConfusion h
      · rcases h with ⟨x, _, h⟩
        exact Ev.noConfusion h
    · rw [saveMessage_messages]
  | none =>
    by_cases hne : fragsJoin (allLines cs) = ""
    · simp only [streamAccum, ne_eq, hne, not_true_eq_false, ite_false, if_neg,
        not_false_eq_true]
      refine ⟨by simp, fun h => h.2.elim, fun _ => ⟨?_, ?_, by simp⟩⟩
      · intro d c ids hmem
        simp only [List.mem_cons, List.mem_map] at hmem
        rcases hmem with h | h | h
        · exact Ev.noConfusion h
        · exact Ev.noConfusion h
        · rcases h with ⟨x, _, h⟩
          exact Ev.noConfusion h
      · rw [saveMessage_messages]
    · simp only [streamAccum, ne_eq, hne, not_false_eq_true, if_true]
      refine ⟨by simp, fun _ => by simp, fun h => ?_⟩
      rcases h with h | h
      · exact absurd (by trivial) h
      · exact h.elim

theorem chat_persistence_ordering_witness :
    (streamChat exRemote exDb "u1" ⟨"d1", "hi", none⟩).trace.take 2 =
      [.saveUser "d1" "hi", .openRemote "L1" "hi" (chatContext exDb "d1" "hi")] ∧
    (streamChat exRemote exDb "u1" ⟨"d1", "hi", none⟩).trace =
      .saveUser "d1" "hi" ::
        .openRemote "L1" "hi" (chatContext exDb "d1" "hi") ::
          (exChunks.map Ev.yieldChunk ++
            [.saveAssistant "d1" (fragsJoin (allLines exChunks))
              (lastIds (allLines exChunks) [])]) := by
  have h := @chat_persistence_ordering exRemote exDb "u1" ⟨"d1", "hi", none⟩
    exDoc "L1" exChunks none (by decide) (by decide) (by decide) (by decide) rfl
  exact ⟨h.1, h.2.1 ⟨rfl, by decide⟩⟩

deriving instance DecidableEq for Except

theorem validate_notFound {db : Db} {userId documentId : String}
    (h : db.findDocument documentId = none) :
    validateDocumentAccess db userId documentId =
      .error (.notFound "Document not found") := by
  unfold validateDocumentAccess
  rw [h]

theorem validate_forbidden {db : Db} {userId documentId : String} {doc : Document}
    (h : db.findDocument documentId = some doc) (hown : doc.user_id ≠ userId) :
    validateDocumentAccess db userId documentId =
      .error (.forbidden "Access denied") := by
  unfold validateDocumentAccess
  rw [h]
  simp [hown]

theorem validate_notReady {db : Db} {userId documentId : String} {doc : Document}
    (h : db.findDocument documentId = some doc) (hown : doc.user_id = userId)
    (hst : doc.status ≠ "COMPLETED") :
    validateDocumentAccess db userId documentId =
      .error (.badRequest ("Document is not ready. Current status: " ++ doc.status)) := by
  unfold validateDocumentAccess
  rw [h]
  simp [hown, hst]

theorem validate_noLogos {db : Db} {userId documentId : String} {doc : Document}
    (h : db.findDocument documentId = some doc) (hown : doc.user_id = userId)
    (hst : doc.status = "COMPLETED") (hlid : doc.logos_id = none) :
    validateDocumentAccess db userId documentId =
      .error (.badRequest "Document has no Logos reference") := by
  unfold validateDocumentAccess
  rw [h]
  simp [hown, hst, hlid]

theorem getChatHistory_err {db : Db} {userId documentId : String} {e : ApiError}
    (h : validateDocumentAccess db userId documentId = .error e) :
    getChatHistory db userId documentId = .error e := by
  unfold getChatHistory
  rw [h]
  rfl

/-- A document owned by `u1` that is still PENDING. -/
def pendDoc : Document := ⟨"d2", "u1", some "L2", "PENDING", none, none, none⟩

/-- A state holding just `pendDoc`. -/
def pendDb : Db := ⟨[pendDoc], [], [], 0⟩

/-- C5, counterexample: on an owned document that is merely PENDING,
`getChatHistory` fails with the readiness `BadRequest` (the spec's
`InvalidState`) — not with NotFound or Forbidden, and not with the
document's history — because it validates through
`validateDocumentAccess`, which also checks status and remote reference,
not through the Document Directory's pure access rule. -/
theorem getHistory_invalid_state_cex :
    getChatHistory pendDb "u1" "d2" =
      .error (.badRequest "Document is not ready. Current status: PENDING") := by
  decide

/-- C5 (amended): `getChatHistory` validates through the chat module's
document validation — NotFound when absent, Forbidden when not owner,
InvalidState when not COMPLETED or without remote reference — and for
every COMPLETED, remote-linked document the caller owns it returns the
session's messages ordered by creation time ascending, or an empty
history (not an error) when no session exists. -/
theorem getHistory_spec (db : Db) (userId documentId : String) :
    (db.findDocument documentId = none →
      getChatHistory db userId documentId = .error (.notFound "Document not found")) ∧
    (∀ doc, db.findDocument documentId = some doc → doc.user_id ≠ userId →
      getChatHistory db userId documentId = .error (.forbidden "Access denied")) ∧
    (∀ doc, db.findDocument documentId = some doc → doc.user_id = userId →
      doc.status ≠ "COMPLETED" →
      getChatHistory db userId documentId =
        .error (.badRequest ("Document is not ready. Current status: " ++ doc.status))) ∧
    (∀ doc, db.findDocument documentId = some doc → doc.user_id = userId →
      doc.status = "COMPLETED" → doc.logos_id = none →
      getChatHistory db userId documentId =
        .error (.badRequest "Document has no Logos reference")) ∧
    (∀ doc lid, db.findDocument documentId = some doc → doc.user_id = userId →
      doc.status = "COMPLETED" → doc.logos_id = some lid →
      getChatHistory db userId documentId = .ok (historyView db documentId) ∧
      (db.findSession documentId = none →
        historyView db documentId = ⟨"", documentId, []⟩) ∧
      (∀ s, db.findSession documentId = some s →
        (historyView db documentId).session_id = s.id ∧
        (historyView db documentId).messages =
          (db.sessionMessages s.id).map
            (fun m => ⟨m.id, m.role, m.content, m.chunk_ids, m.created_at⟩) ∧
        (db.messages.Pairwise (fun a b => a.created_at ≤ b.created_at) →
          (historyView db documentId).messages.Pairwise
            (fun a b => a.created_at ≤ b.created_at)))) := by
  refine ⟨fun h => getChatHistory_err (validate_notFound h),
    fun doc h hown => getChatHistory_err (validate_forbidden h hown),
    fun doc h hown hst => getChatHistory_err (validate_notReady h hown hst),
    fun doc h hown hst hlid => getChatHistory_err (validate_noLogos h hown hst hlid),
    fun doc lid h hown hst hlid => ?_⟩
  · refine ⟨getChatHistory_eq_ok (validateAccess_ok h hown hst hlid), fun hs => ?_,
      fun s hs => ?_⟩
    · unfold historyView
      rw [hs]
    · unfold historyView
      rw [hs]
      refine ⟨rfl, rfl, fun hsorted => ?_⟩
      exact ((hsorted.filter _).map _ (fun a b hab => hab))

/-- A chat session and two messages on `exDoc`, in creation order. -/
def histDb : Db :=
  ⟨[exDoc], [⟨"s1", "d1"⟩],
    [⟨"m1", "s1", "user", "q", [], 1⟩, ⟨"m2", "s1", "assistant", "a", ["c1"], 2⟩], 3⟩

theorem getHistory_spec_witness :
    getChatHistory histDb "u1" "d1" = .ok (historyView histDb "d1") ∧
    (historyView histDb "d1").session_id = "s1" ∧
    (historyView histDb "d1").messages.Pairwise
      (fun a b => a.created_at ≤ b.created_at) := by
  have h := (getHistory_spec histDb "u1" "d1").2.2.2.2 exDoc "L1"
    (by decide) (by decide) (by decide) (by decide)
  have hs := h.2.2 ⟨"s1", "d1"⟩ (by decide)
  exact ⟨h.1, hs.1, hs.2.2 (by decide)⟩

theorem bind_ok {α β ε : Type} (x : α) (f : α → Except ε β) :
    (do
      let a ← Except.ok x
      f a : Except ε β) = f x := rfl

theorem findOne_ok {db : Db} {userId documentId : String} {doc : Document}
    (hdoc : db.findDocument documentId = some doc) (hown : doc.user_id = userId) :
    findOne db userId documentId = .ok doc := by
  unfold findOne
  rw [hdoc]
  simp [hown]

theorem findDocument_update {db : Db} {documentId : String} {doc : Document}
    (f : Document → Document) (hf : ∀ d, (f d).id = d.id)
    (hdoc : db.findDocument documentId = some doc) :
    (db.updateDocument documentId f).findDocument documentId = some (f doc) := by
  unfold Db.findDocument Db.updateDocument at *
  have hp : (fun d : Document =>
      (if d.id = documentId then f d else d).id == documentId) =
      (fun d : Document => d.id == documentId) := by
    funext d
    by_cases hid : d.id = documentId
    · simp [hid, hf]
    · simp [hid]
  have hdid : doc.id = documentId := by
    have := List.find?_some hdoc
    simpa using this
  rw [List.find?_map]
  show Option.map _ (db.documents.find? fun d =>
    (if d.id = documentId then f d else d).id == documentId) = _
  rw [hp, hdoc]
  simp [hdid]

theorem findDocument_remove (db : Db) (documentId : String) :
    (db.removeDocument documentId).findDocument documentId = none := by
  unfold Db.findDocument Db.removeDocument
  rw [List.find?_eq_none]
  intro d hd
  have := (List.mem_filter.mp hd).2
  simpa using this

/-- C7: for an owned document with no remote reference, `getStatus`
returns exactly the locally stored fields, performs no remote call (empty
event list contains no `remoteStatus`) and leaves the state unchanged. -/
theorem getStatus_local_only {env : LogosEnv} {db : Db} {userId documentId : String}
    {doc : Document}
    (hdoc : db.findDocument documentId = some doc) (hown : doc.user_id = userId)
    (hnl : doc.logos_id = none) :
    getStatus env db userId documentId =
      .ok (⟨doc.id, doc.status, doc.summary, doc.classification, doc.error_message⟩,
        db, []) := by
  unfold getStatus
  rw [findOne_ok hdoc hown]
  show (match doc.logos_id with
    | none => _
    | some lid => _) = _
  rw [hnl]

/-- C6: for an owned remote-linked document, when the fresh remote status
differs from the local one `getStatus` persists status, summary,
classification and error message locally (the `dbUpdate` event follows
the `remoteStatus` call, before returning) and returns the fresh values;
a second call against the updated state and an unchanged remote performs
no local write (no `dbUpdate` event, same state back).  When the fresh
status equals the local one, no local write happens at all. -/
theorem getStatus_sync_idempotent {env : LogosEnv} {db : Db}
    {userId documentId : String} {doc : Document} {lid : String}
    (hdoc : db.findDocument documentId = some doc) (hown : doc.user_id = userId)
    (hlid : doc.logos_id = some lid) :
    ((getDocumentStatus env lid).status ≠ doc.status →
      getStatus env db userId documentId =
        .ok (⟨doc.id, (getDocumentStatus env lid).status,
              (getDocumentStatus env lid).summary,
              (getDocumentStatus env lid).classification,
              (getDocumentStatus env lid).error_message⟩,
          db.updateDocument documentId (statusData (getDocumentStatus env lid)),
          [.remoteStatus lid, .dbUpdate documentId]) ∧
      getStatus env (db.updateDocument documentId (statusData (getDocumentStatus env lid)))
          userId documentId =
        .ok (⟨doc.id, (getDocumentStatus env lid).status,
              (getDocumentStatus env lid).summary,
              (getDocumentStatus env lid).classification,
              (getDocumentStatus env lid).error_message⟩,
          db.updateDocument documentId (statusData (getDocumentStatus env lid)),
          [.remoteStatus lid])) ∧
    ((getDocumentStatus env lid).status = doc.status →
      getStatus env db userId documentId =
        .ok (⟨doc.id, (getDocumentStatus env lid).status,
              (getDocumentStatus env lid).summary,
              (getDocumentStatus env lid).classification,
              (getDocumentStatus env lid).error_message⟩,
          db, [.remoteStatus lid])) := by
  have hup := findDocument_update (statusData (getDocumentStatus env lid))
    (fun d => rfl) hdoc
  constructor
  · intro hdiff
    constructor
    · unfold getStatus
      rw [findOne_ok hdoc hown]
      show (match doc.logos_id with
        | none => _
        | some lid => _) = _
      rw [hlid]
      simp [hdiff]
    · unfold getStatus
      rw [findOne_ok hup (by simpa [statusData] using hown)]
      show (match (statusData (getDocumentStatus env lid) doc).logos_id with
        | none => _
        | some lid => _) = _
      have hlid' : (statusData (getDocumentStatus env lid) doc).logos_id = some lid := by
        simpa [statusData] using hlid
      rw [hlid']
      have hsame : (getDocumentStatus env lid).status =
          (statusData (getDocumentStatus env lid) doc).status := rfl
      simp [← hsame, statusData]
  · intro heq
    unfold getStatus
    rw [findOne_ok hdoc hown]
    show (match doc.logos_id with
      | none => _
      | some lid => _) = _
    rw [hlid]
    simp [heq]

/-- C8: for an owned document, `delete` always succeeds and removes the
local record, whatever the remote delete's outcome (the environment's
`deleteError` never surfaces); when a remote reference exists the remote
delete is attempted first, the local delete following unconditionally. -/
theorem delete_best_effort_remote {env : LogosEnv} {db : Db}
    {userId documentId : String} {doc : Document}
    (hdoc : db.findDocument documentId = some doc) (hown : doc.user_id = userId) :
    deleteDocument env db userId documentId =
      .ok ("Document deleted successfully", db.removeDocument documentId,
        (match doc.logos_id with
          | some lid => [DocEv.remoteDelete lid]
          | none => []) ++ [.dbDelete documentId]) ∧
    (db.removeDocument documentId).findDocument documentId = none := by
  refine ⟨?_, findDocument_remove db documentId⟩
  unfold deleteDocument
  simp only [findOne_ok hdoc hown, bind_ok]
  cases hl : doc.logos_id with
  | none => rfl
  | some lid =>
    have hboth : ∀ r : Except ApiError Unit,
        (match r with
          | Except.ok _ => [DocEv.remoteDelete lid]
          | Except.error _ => [DocEv.remoteDelete lid]) = [DocEv.remoteDelete lid] := by
      intro r
      cases r <;> rfl
    simp [hboth]

/-- A remote whose status endpoint reports `processing` (differing from
`exDoc`'s local COMPLETED) and whose delete endpoint succeeds. -/
def exStatusEnv : LogosEnv :=
  ⟨fun _ => ⟨"L1", "processing", some "sum", some "class", none⟩, fun _ => none⟩

theorem getStatus_sync_idempotent_witness :
    (getDocumentStatus exStatusEnv "L1").status = "PROCESSING" ∧
    getStatus exStatusEnv exDb "u1" "d1" =
      .ok (⟨exDoc.id, (getDocumentStatus exStatusEnv "L1").status,
            (getDocumentStatus exStatusEnv "L1").summary,
            (getDocumentStatus exStatusEnv "L1").classification,
            (getDocumentStatus exStatusEnv "L1").error_message⟩,
        exDb.updateDocument "d1" (statusData (getDocumentStatus exStatusEnv "L1")),
        [.remoteStatus "L1", .dbUpdate "d1"]) ∧
    getStatus exStatusEnv
        (exDb.updateDocument "d1" (statusData (getDocumentStatus exStatusEnv "L1")))
        "u1" "d1" =
      .ok (⟨exDoc.id, (getDocumentStatus exStatusEnv "L1").status,
            (getDocumentStatus exStatusEnv "L1").summary,
            (getDocumentStatus exStatusEnv "L1").classification,
            (getDocumentStatus exStatusEnv "L1").error_message⟩,
        exDb.updateDocument "d1" (statusData (getDocumentStatus exStatusEnv "L1")),
        [.remoteStatus "L1"]) := by
  have h := (@getStatus_sync_idempotent exStatusEnv exDb "u1" "d1" exDoc "L1"
    (by decide) (by decide) (by decide)).1 (by decide)
  exact ⟨by decide, h.1, h.2⟩

/-- A FAILED document with no remote reference, owned by `u1`. -/
def localDoc : Document := ⟨"d3", "u1", none, "FAILED", some "s", some "c", some "e"⟩

/-- A state holding just `localDoc`. -/
def localDb : Db := ⟨[localDoc], [], [], 0⟩

theorem getStatus_local_only_witness :
    getStatus exStatusEnv localDb "u1" "d3" =
      .ok (⟨"d3", "FAILED", some "s", some "c", some "e"⟩, localDb, []) :=
  @getStatus_local_only exStatusEnv localDb "u1" "d3" localDoc
    (by decide) (by decide) (by decide)

/-- A remote whose delete endpoint fails with an HTTP 500. -/
def failEnv : LogosEnv :=
  ⟨fun _ => ⟨"", "", none, none, none⟩,
    fun _ => some (.http 500 "Failed to delete document from Logos")⟩

theorem delete_best_effort_remote_witness :
    deleteDocument failEnv exDb "u1" "d1" =
      .ok ("Document deleted successfully", exDb.removeDocument "d1",
        [.remoteDelete "L1", .dbDelete "d1"]) ∧
    (exDb.removeDocument "d1").findDocument "d1" = none := by
  have h := @delete_best_effort_remote failEnv exDb "u1" "d1" exDoc
    (by decide) (by decide)
  exact ⟨h.1, h.2⟩

/-! ## Lines split across chunk boundaries (C10) -/

theorem splitNl_no_nl (p : List Char) (h : '\n' ∉ p) : splitNl p = [p] := by
  induction p with
  | nil => rfl
  | cons c cs ih =>
    have hc : ¬ c = '\n' := fun hc => h (hc ▸ List.mem_cons_self c cs)
    simp only [splitNl, if_neg hc]
    rw [ih (fun hm => h (List.mem_cons_of_mem c hm))]

/-- The piece of the split example line before the split point. -/
def pieceA : String := "data: \x7b\"content\":\"X\"\x7d"

/-- The piece of the split example line after the split point. -/
def pieceB : String := " "

/-- A remote that delivers the example line split across two chunks. -/
def splitRemote : ChatRemote := fun _ _ _ => ([pieceA, pieceB], none)

/-- C10, counterexample: the line `data: {"content":"X"} ` (trailing
space after its JSON payload) carries the content fragment `"X"`; split
right after the closing brace into the chunks `pieceA`/`pieceB`, the
first piece is itself a parseable `data: ` line, so `streamChat` appends
`"X"` and persists it — the claim's "the line's content fragment is not
appended" fails at this split. -/
theorem split_line_cex :
    lineFrag (pieceA ++ pieceB).data = some "X" ∧
    (streamChat splitRemote exDb "u1" ⟨"d1", "q", none⟩).trace =
      [.saveUser "d1" "q", .openRemote "L1" "q" [],
        .yieldChunk pieceA, .yieldChunk pieceB,
        .saveAssistant "d1" "X" []] :=
  ⟨by decide, by decide⟩

/-- C10 (amended): the parse loop inspects lines only within a single
chunk and never reassembles a line across a chunk boundary: the two
pieces of a split line are processed as separate lines (`allLines`), the
chunks are still forwarded to the caller unchanged, and whenever neither
truncated piece is itself a parseable `data: ` line (in particular for
any split strictly inside the JSON payload of a line with nothing after
the payload), nothing is accumulated and no assistant message is
persisted. -/
theorem split_line_no_reassembly {remote : ChatRemote} {db : Db}
    {userId : String} {req : ChatRequest} {doc : Document} {lid : String}
    {p₁ p₂ : List Char}
    (hdoc : db.findDocument req.document_id = some doc)
    (hown : doc.user_id = userId) (hst : doc.status = "COMPLETED")
    (hlid : doc.logos_id = some lid)
    (hrem : remote lid req.message (chatContext db req.document_id req.message) =
      ([String.mk p₁, String.mk p₂], none))
    (hn₁ : '\n' ∉ p₁) (hn₂ : '\n' ∉ p₂)
    (hf₁ : lineFrag p₁ = none) (hi₁ : lineIds p₁ = none)
    (hf₂ : lineFrag p₂ = none) (hi₂ : lineIds p₂ = none) :
    allLines [String.mk p₁, String.mk p₂] = [p₁, p₂] ∧
    streamAccum [String.mk p₁, String.mk p₂] = initAccum ∧
    (streamChat remote db userId req).trace.filterMap yieldOf =
      [String.mk p₁, String.mk p₂] ∧
    (streamChat remote db userId req).db.messages =
      db.messages ++ [(saveMessage db req.document_id "user" req.message []).1] ∧
    (streamChat remote db userId req).error = none := by
  have hall : allLines [String.mk p₁, String.mk p₂] = [p₁, p₂] := by
    show splitNl p₁ ++ (splitNl p₂ ++ []) = [p₁, p₂]
    rw [splitNl_no_nl p₁ hn₁, splitNl_no_nl p₂ hn₂]
    rfl
  have hacc : streamAccum [String.mk p₁, String.mk p₂] = initAccum := by
    unfold streamAccum initAccum
    rw [hall]
    simp [fragsJoin, lastIds, hf₁, hf₂, hi₁, hi₂, String.empty_append]
  have hfr : (streamAccum [String.mk p₁, String.mk p₂]).fullResponse = "" := by
    rw [hacc]
    rfl
  refine ⟨hall, hacc, ?_⟩
  rw [streamChat_run hdoc hown hst hlid]
  simp only [hrem, ne_eq, hfr, not_true_eq_false, ite_false, if_neg, not_false_eq_true]
  refine ⟨by simp [yieldOf], by rw [saveMessage_messages], by simp⟩

theorem split_line_no_reassembly_witness :
    allLines ["data: \x7b\"co", "ntent\":\"X\"\x7d"] =
      ["data: \x7b\"co".data, "ntent\":\"X\"\x7d".data] ∧
    streamAccum ["data: \x7b\"co", "ntent\":\"X\"\x7d"] = initAccum ∧
    (streamChat (fun _ _ _ => (["data: \x7b\"co", "ntent\":\"X\"\x7d"], none))
        exDb "u1" ⟨"d1", "q", none⟩).trace.filterMap yieldOf =
      ["data: \x7b\"co", "ntent\":\"X\"\x7d"] ∧
    (streamChat (fun _ _ _ => (["data: \x7b\"co", "ntent\":\"X\"\x7d"], none))
        exDb "u1" ⟨"d1", "q", none⟩).db.messages =
      exDb.messages ++ [(saveMessage exDb "d1" "user" "q" []).1] ∧
    (streamChat (fun _ _ _ => (["data: \x7b\"co", "ntent\":\"X\"\x7d"], none))
        exDb "u1" ⟨"d1", "q", none⟩).error = none :=
  @split_line_no_reassembly (fun _ _ _ => (["data: \x7b\"co", "ntent\":\"X\"\x7d"], none))
    exDb "u1" ⟨"d1", "q", none⟩ exDoc "L1" "data: \x7b\"co".data "ntent\":\"X\"\x7d".data
    (by decide) (by decide) (by decide) (by decide) rfl
    (by decide) (by decide) (by decide) (by decide) (by decide) (by decide)

/-! ## The byte level of the streaming proxy (C2)

In the source the remote stream delivers byte `Buffer`s;
`LogosService.chatStream` yields `chunk.toString()` — a per-chunk UTF-8
decode with U+FFFD replacement — and the controller's `res.write`
re-encodes the yielded string.  This section models the bytes: the UTF-8
encoding of a string (what `res.write` sends), Node's replacement
decoder (what `chunk.toString()` yields), and `chatStream` over a
byte-level remote. -/

/-- The replacement character U+FFFD. -/
def repl : Char := Char.ofNat 0xFFFD

/-- The UTF-8 encoding of one scalar value. -/
def encodeChar (c : Char) : List Nat :=
  let v := c.toNat
  if v < 0x80 then [v]
  else if v < 0x800 then [0xC0 + v / 64, 0x80 + v % 64]
  else if v < 0x10000 then [0xE0 + v / 4096, 0x80 + v / 64 % 64, 0x80 + v % 64]
  else [0xF0 + v / 262144, 0x80 + v / 4096 % 64, 0x80 + v / 64 % 64, 0x80 + v % 64]

/-- The UTF-8 bytes `res.write` sends for a yielded string chunk. -/
def utf8Encode (s : String) : List Nat :=
  s.data.flatMap encodeChar

/-- Lower bound for the second byte of a three-byte sequence (0xE0
starts at 0xA0 to exclude overlong forms). -/
def lo2 (b : Nat) : Nat := if b = 0xE0 then 0xA0 else 0x80

/-- Upper bound for the second byte of a three-byte sequence (0xED stops
at 0x9F to exclude surrogates). -/
def hi2 (b : Nat) : Nat := if b = 0xED then 0x9F else 0xBF

/-- Lower bound for the second byte of a four-byte sequence (0xF0 starts
at 0x90 to exclude overlong forms). -/
def lo3 (b : Nat) : Nat := if b = 0xF0 then 0x90 else 0x80

/-- Upper bound for the second byte of a four-byte sequence (0xF4 stops
at 0x8F to cap at U+10FFFF). -/
def hi3 (b : Nat) : Nat := if b = 0xF4 then 0x8F else 0xBF

/-- Classify one byte seen in the ground state: the characters it emits
immediately (an ASCII scalar, or U+FFFD for a byte that can start no
sequence) and the decoder state it leaves — continuation bytes still
needed, accumulated scalar bits, and the allowed range for the next
byte. -/
def classify (b : Nat) : List Char × Nat × Nat × Nat × Nat :=
  if b < 0x80 then ([Char.ofNat b], 0, 0, 0x80, 0xBF)
  else if 0xC2 ≤ b ∧ b ≤ 0xDF then ([], 1, b - 0xC0, 0x80, 0xBF)
  else if 0xE0 ≤ b ∧ b ≤ 0xEF then ([], 2, b - 0xE0, lo2 b, hi2 b)
  else if 0xF0 ≤ b ∧ b ≤ 0xF4 then ([], 3, b - 0xF0, lo3 b, hi3 b)
  else ([repl], 0, 0, 0x80, 0xBF)

/-- The WHATWG UTF-8 replacement decoder (`Buffer.toString('utf8')`) as
a byte-at-a-time state machine: a well-formed sequence decodes to its
scalar; a malformed byte emits one U+FFFD for the pending maximal
subpart and is then reprocessed in the ground state; a sequence
truncated at the end of the chunk emits one U+FFFD. -/
def utf8Run : Nat → Nat → Nat → Nat → List Nat → List Char
  | needed, _, _, _, [] => if needed = 0 then [] else [repl]
  | needed, acc, lo, hi, b :: bs =>
    if needed = 0 then
      match classify b with
      | (out, n', a', l', h') => out ++ utf8Run n' a' l' h' bs
    else if lo ≤ b ∧ b ≤ hi then
      if needed = 1 then
        Char.ofNat (acc * 64 + (b - 0x80)) :: utf8Run 0 0 0x80 0xBF bs
      else utf8Run (needed - 1) (acc * 64 + (b - 0x80)) 0x80 0xBF bs
    else
      match classify b with
      | (out, n', a', l', h') => repl :: (out ++ utf8Run n' a' l' h' bs)

/-- Decode a whole byte chunk from the ground state. -/
def utf8DecodeGo (bs : List Nat) : List Char :=
  utf8Run 0 0 0x80 0xBF bs

/-- `chunk.toString()` on a byte chunk. -/
def utf8Decode (bs : List Nat) : String :=
  String.mk (utf8DecodeGo bs)

theorem utf8Run_ground_cons (b : Nat) (bs : List Nat) :
    utf8Run 0 0 0x80 0xBF (b :: bs) =
      (classify b).1 ++ utf8Run (classify b).2.1 (classify b).2.2.1
        (classify b).2.2.2.1 (classify b).2.2.2.2 bs := rfl

theorem utf8Run_last_cont (acc lo hi b : Nat) (bs : List Nat)
    (hr : lo ≤ b ∧ b ≤ hi) :
    utf8Run 1 acc lo hi (b :: bs) =
      Char.ofNat (acc * 64 + (b - 0x80)) :: utf8Run 0 0 0x80 0xBF bs := by
  conv_lhs => rw [utf8Run]
  rw [if_neg (by omega), if_pos hr, if_pos rfl]

theorem utf8Run_mid_cont (needed acc lo hi b : Nat) (bs : List Nat)
    (hn : needed ≠ 0) (hn1 : needed ≠ 1) (hr : lo ≤ b ∧ b ≤ hi) :
    utf8Run needed acc lo hi (b :: bs) =
      utf8Run (needed - 1) (acc * 64 + (b - 0x80)) 0x80 0xBF bs := by
  conv_lhs => rw [utf8Run]
  rw [if_neg hn, if_pos hr, if_neg hn1]

theorem utf8DecodeGo_encodeChar (c : Char) (bs : List Nat) :
    utf8DecodeGo (encodeChar c ++ bs) = c :: utf8DecodeGo bs := by
  have hval : c.toNat < 0xD800 ∨ (0xDFFF < c.toNat ∧ c.toNat < 0x110000) := by
    have h := c.valid
    simpa [Char.toNat, UInt32.isValidChar, Nat.isValidChar] using h
  unfold utf8DecodeGo
  by_cases h1 : c.toNat < 0x80
  · have he : encodeChar c = [c.toNat] := by simp [encodeChar, h1]
    have hcl : classify c.toNat = ([Char.ofNat c.toNat], 0, 0, 0x80, 0xBF) := by
      unfold classify
      rw [if_pos h1]
    rw [he, List.singleton_append, utf8Run_ground_cons, hcl]
    dsimp only
    rw [List.singleton_append, Char.ofNat_toNat]
  · by_cases h2 : c.toNat < 0x800
    · have he : encodeChar c = [0xC0 + c.toNat / 64, 0x80 + c.toNat % 64] := by
        simp [encodeChar, h1, h2]
      have hcl : classify (0xC0 + c.toNat / 64) =
          ([], 1, 0xC0 + c.toNat / 64 - 0xC0, 0x80, 0xBF) := by
        unfold classify
        rw [if_neg (by omega), if_pos (by omega)]
      rw [he]
      simp only [List.cons_append, List.nil_append]
      rw [utf8Run_ground_cons, hcl]
      dsimp only
      rw [List.nil_append, utf8Run_last_cont _ _ _ _ _ (by omega)]
      have hs : (0xC0 + c.toNat / 64 - 0xC0) * 64 + (0x80 + c.toNat % 64 - 0x80) =
          c.toNat := by omega
      rw [hs, Char.ofNat_toNat]
    · by_cases h3 : c.toNat < 0x10000
      · have he : encodeChar c =
            [0xE0 + c.toNat / 4096, 0x80 + c.toNat / 64 % 64, 0x80 + c.toNat % 64] := by
          simp [encodeChar, h1, h2, h3]
        have hcl : classify (0xE0 + c.toNat / 4096) =
            ([], 2, 0xE0 + c.toNat / 4096 - 0xE0,
              lo2 (0xE0 + c.toNat / 4096), hi2 (0xE0 + c.toNat / 4096)) := by
          unfold classify
          rw [if_neg (by omega), if_neg (by omega), if_pos (by omega)]
        have hb1 : lo2 (0xE0 + c.toNat / 4096) ≤ 0x80 + c.toNat / 64 % 64 ∧
            0x80 + c.toNat / 64 % 64 ≤ hi2 (0xE0 + c.toNat / 4096) := by
          unfold lo2 hi2
          constructor
          · by_cases hE : (0xE0 + c.toNat / 4096 : Nat) = 0xE0
            · rw [if_pos hE]
              omega
            · rw [if_neg hE]
              omega
          · by_cases hE : (0xE0 + c.toNat / 4096 : Nat) = 0xED
            · rw [if_pos hE]
              rcases hval with h | h <;> omega
            · rw [if_neg hE]
              omega
        rw [he]
        simp only [List.cons_append, List.nil_append]
        rw [utf8Run_ground_cons, hcl]
        dsimp only
        rw [List.nil_append, utf8Run_mid_cont _ _ _ _ _ _ (by omega) (by omega) hb1]
        have h21 : (2 : Nat) - 1 = 1 := rfl
        rw [h21, utf8Run_last_cont _ _ _ _ _ (by omega)]
        have hs : ((0xE0 + c.toNat / 4096 - 0xE0) * 64 +
              (0x80 + c.toNat / 64 % 64 - 0x80)) * 64 + (0x80 + c.toNat % 64 - 0x80) =
            c.toNat := by omega
        rw [hs, Char.ofNat_toNat]
      · have h4 : c.toNat < 0x110000 := by rcases hval with h | h <;> omega
        have he : encodeChar c =
            [0xF0 + c.toNat / 262144, 0x80 + c.toNat / 4096 % 64,
              0x80 + c.toNat / 64 % 64, 0x80 + c.toNat % 64] := by
          simp [encodeChar, h1, h2, h3]
        have hcl : classify (0xF0 + c.toNat / 262144) =
            ([], 3, 0xF0 + c.toNat / 262144 - 0xF0,
              lo3 (0xF0 + c.toNat / 262144), hi3 (0xF0 + c.toNat / 262144)) := by
          unfold classify
          rw [if_neg (by omega), if_neg (by omega), if_neg (by omega), if_pos (by omega)]
        have hb1 : lo3 (0xF0 + c.toNat / 262144) ≤ 0x80 + c.toNat / 4096 % 64 ∧
            0x80 + c.toNat / 4096 % 64 ≤ hi3 (0xF0 + c.toNat / 262144) := by
          unfold lo3 hi3
          constructor
          · by_cases hF : (0xF0 + c.toNat / 262144 : Nat) = 0xF0
            · rw [if_pos hF]
              omega
            · rw [if_neg hF]
              omega
          · by_cases hF : (0xF0 + c.toNat / 262144 : Nat) = 0xF4
            · rw [if_pos hF]
              omega
            · rw [if_neg hF]
              omega
        rw [he]
        simp only [List.cons_append, List.nil_append]
        rw [utf8Run_ground_cons, hcl]
        dsimp only
        rw [List.nil_append, utf8Run_mid_cont _ _ _ _ _ _ (by omega) (by omega) hb1]
        have h31 : (3 : Nat) - 1 = 2 := rfl
        rw [h31, utf8Run_mid_cont _ _ _ _ _ _ (by omega) (by omega) (by omega)]
        have h21 : (2 : Nat) - 1 = 1 := rfl
        rw [h21, utf8Run_last_cont _ _ _ _ _ (by omega)]
        have hs : (((0xF0 + c.toNat / 262144 - 0xF0) * 64 +
                (0x80 + c.toNat / 4096 % 64 - 0x80)) * 64 +
              (0x80 + c.toNat / 64 % 64 - 0x80)) * 64 + (0x80 + c.toNat % 64 - 0x80) =
            c.toNat := by omega
        rw [hs, Char.ofNat_toNat]

theorem utf8DecodeGo_encodeList (l : List Char) :
    utf8DecodeGo (l.flatMap encodeChar) = l := by
  induction l with
  | nil => rfl
  | cons c cs ih => rw [List.flatMap_cons, utf8DecodeGo_encodeChar, ih]

/-- Decoding is a left inverse of encoding: a chunk that is the UTF-8
encoding of a text decodes back to that text. -/
theorem utf8Decode_encode (s : String) : utf8Decode (utf8Encode s) = s := by
  unfold utf8Decode utf8Encode
  rw [utf8DecodeGo_encodeList]

/-- The remote chat endpoint at the byte level: the chunks as the socket
delivers them, before any decoding. -/
def ByteRemote := String → String → List (String × String) → List (List Nat) × Option ApiError

/-- `LogosService.chatStream` over the raw byte stream: axios delivers
`Buffer` chunks and the generator yields `chunk.toString()`, so through
`streamChat`'s string-level interface a byte-level remote appears as its
chunkwise UTF-8 decoding. -/
def chatStreamOverBytes (remote : ByteRemote) : ChatRemote :=
  fun logosDocumentId message conversationHistory =>
    ((remote logosDocumentId message conversationHistory).1.map utf8Decode,
      (remote logosDocumentId message conversationHistory).2)

/-- A byte-level remote that delivers the two bytes of `é` (C3 A9) split
across two chunks. -/
def splitByteRemote : ByteRemote := fun _ _ _ => ([[195], [169]], none)

/-- C2, counterexample: with the bytes C3 A9 of one character split
across two chunks, each received chunk decodes to U+FFFD, so the caller
observes two replacement-character chunks; re-encoding the first
forwarded chunk gives EF BF BD, not the received C3 — the proxy
re-encodes, and a chunk split inside a multibyte character is altered,
refuting byte transparency as claimed. -/
theorem stream_reencodes_split_bytes_cex :
    (streamChat (chatStreamOverBytes splitByteRemote) exDb "u1"
        ⟨"d1", "q", none⟩).trace.filterMap yieldOf =
      [utf8Decode [195], utf8Decode [169]] ∧
    utf8Decode [195] = "�" ∧
    utf8Encode (utf8Decode [195]) = [239, 191, 189] ∧
    utf8Encode (utf8Decode [195]) ≠ [195] :=
  ⟨by decide, by decide, by decide, by decide⟩

/-- C2 (amended): for a remote delivering the byte chunks `bs`, the
caller observes exactly `bs.length` chunks in the same order — none
merged, split away, reordered or dropped — each the per-chunk UTF-8
decoding (`chunk.toString()`) of the corresponding received chunk; every
chunk that is a well-formed UTF-8 encoding of some text (in particular
every chunk whose boundaries fall on character boundaries) is forwarded
as exactly that text and re-encodes to exactly the received bytes. -/
theorem stream_proxy_chunkwise_decode {remote : ByteRemote} {db : Db}
    {userId : String} {req : ChatRequest} {doc : Document} {lid : String}
    {bs : List (List Nat)} {err : Option ApiError}
    (hdoc : db.findDocument req.document_id = some doc)
    (hown : doc.user_id = userId) (hst : doc.status = "COMPLETED")
    (hlid : doc.logos_id = some lid)
    (hrem : remote lid req.message (chatContext db req.document_id req.message) = (bs, err)) :
    (streamChat (chatStreamOverBytes remote) db userId req).trace.filterMap yieldOf =
      bs.map utf8Decode ∧
    ∀ c ∈ bs, ∀ s : String, c = utf8Encode s →
      utf8Decode c = s ∧ utf8Encode (utf8Decode c) = c := by
  constructor
  · have hrem' : chatStreamOverBytes remote lid req.message
        (chatContext db req.document_id req.message) = (bs.map utf8Decode, err) := by
      unfold chatStreamOverBytes
      rw [hrem]
    exact streamChat_yields hdoc hown hst hlid hrem'
  · intro c _ s hs
    subst hs
    exact ⟨utf8Decode_encode s, by rw [utf8Decode_encode]⟩

/-- A byte-level remote delivering two well-formed chunks, the second a
two-byte character. -/
def wholeByteRemote : ByteRemote :=
  fun _ _ _ => ([utf8Encode "data: x\n", utf8Encode "é"], none)

theorem stream_proxy_chunkwise_decode_witness :
    (streamChat (chatStreamOverBytes wholeByteRemote) exDb "u1"
        ⟨"d1", "q", none⟩).trace.filterMap yieldOf =
      [utf8Encode "data: x\n", utf8Encode "é"].map utf8Decode ∧
    utf8Decode (utf8Encode "é") = "é" ∧
    utf8Encode (utf8Decode (utf8Encode "é")) = utf8Encode "é" := by
  have h := @stream_proxy_chunkwise_decode wholeByteRemote exDb "u1"
    ⟨"d1", "q", none⟩ exDoc "L1" [utf8Encode "data: x\n", utf8Encode "é"] none
    (by decide) (by decide) (by decide) (by decide) rfl
  have h2 := h.2 (utf8Encode "é") (by simp) "é" rfl
  exact ⟨h.1, h2.1, h2.2⟩

end Atlas
